import Mathlib

/-!
Shallow embedding of `src/model.py` (the model component of the 512 game)
and proofs about the claims of its specification.

Python objects are translated to value records.  Mutation is translated to
explicit state passing: each mutating operation returns the new state
together with the ordered list of `GameEvent`s it emitted through
`notify_all` (the global emission order across all elements).  Python's
unbounded `while True` loop in `Tile.slide` is modelled with explicit fuel:
`none` means the loop has not exited after the given number of iterations.
-/

namespace FiveTwelve

/-- EventKind from the source: all the kinds of events that listeners may be
notified of. -/
inductive EventKind where
  | tile_created
  | tile_updated
  | tile_removed
deriving DecidableEq, Repr

/-- Tile from the source: row, col and value fields.  The back-reference to
the owning grid is not a field here; operations that use `self.grid` take the
grid as an explicit argument and return the updated grid. -/
structure Tile where
  row : Int
  col : Int
  value : Int
deriving DecidableEq, Repr

/-- GameEvent from the source: an event kind together with the affected tile.
The `tile` field is the snapshot of the Python tile object's fields at the
moment `notify_all` is called. -/
structure GameEvent where
  kind : EventKind
  tile : Tile
deriving DecidableEq, Repr

/-- Grid from the source: `rows`, `cols` and the `tiles` matrix of optional
tiles. -/
structure Grid where
  rows : Nat
  cols : Nat
  tiles : List (List (Option Tile))
deriving DecidableEq, Repr

/-- Configuration constant GRID_SIZE = 4 from the source. -/
def GRID_SIZE : Nat := 4

/-- Grid.__init__ from the source: a GRID_SIZE x GRID_SIZE matrix of None. -/
def Grid.init : Grid :=
  { rows := GRID_SIZE
    cols := GRID_SIZE
    tiles := List.replicate GRID_SIZE (List.replicate GRID_SIZE none) }

/-- Grid.in_bounds from the source:
`0 <= row < self.rows and 0 <= col < self.cols`. -/
def Grid.in_bounds (g : Grid) (row col : Int) : Bool :=
  decide (0 ≤ row ∧ row < (g.rows : Int) ∧ 0 ≤ col ∧ col < (g.cols : Int))

/-- Reading `self.tiles[r][c]` for natural indices (as the range-based loops
of the source do).  Out-of-range reads, which would raise IndexError in
Python and never happen on well-formed grids, default to an empty row / cell. -/
def Grid.cellN (g : Grid) (r c : Nat) : Option Tile :=
  (g.tiles.getD r []).getD c none

/-- Reading `self.tiles[row][col]` with Python int indices.  In the source
every such read is guarded by `in_bounds`, so the indices are non-negative. -/
def Grid.cell (g : Grid) (row col : Int) : Option Tile :=
  g.cellN row.toNat col.toNat

/-- Writing `self.tiles[r][c] = v` for natural indices.  Out-of-range writes
(never reached from in-bounds call sites) leave the matrix unchanged. -/
def Grid.setCellN (g : Grid) (r c : Nat) (v : Option Tile) : Grid :=
  { g with tiles := g.tiles.set r ((g.tiles.getD r []).set c v) }

/-- Writing `self.tiles[row][col] = v` with Python int indices. -/
def Grid.setCell (g : Grid) (row col : Int) (v : Option Tile) : Grid :=
  g.setCellN row.toNat col.toNat v

/-- Grid.as_list from the source: the grid as a list of lists of numbers,
0 representing an empty tile. -/
def Grid.as_list (g : Grid) : List (List Int) :=
  g.tiles.map fun row => row.map fun cell =>
    match cell with
    | none => 0
    | some t => t.value

/-- Grid.set_tiles from the source: rebuild `self.tiles` from a saved
configuration `rep` (which must have the grid's dimensions), creating a
`Tile(self, row, col, value=val)` for each non-zero entry and notifying
`tile_created` for it, in row-major order. -/
def Grid.set_tiles (g : Grid) (rep : List (List Int)) : Grid × List GameEvent :=
  let val : Nat → Nat → Int := fun row col => (rep.getD row []).getD col 0
  let newTiles : List (List (Option Tile)) :=
    (List.range g.rows).map fun row =>
      (List.range g.cols).map fun col =>
        if val row col = 0 then none
        else some { row := (row : Int), col := (col : Int), value := val row col }
  let evs : List GameEvent :=
    ((List.range g.rows).map fun row =>
      (List.range g.cols).filterMap fun col =>
        if val row col = 0 then none
        else some { kind := EventKind.tile_created
                    tile := { row := (row : Int), col := (col : Int), value := val row col } }).flatten
  ({ g with tiles := newTiles }, evs)

/-- Grid.score from the source: the total value of all tiles. -/
def Grid.score (g : Grid) : Int :=
  (g.tiles.map fun row =>
    (row.map fun cell =>
      match cell with
      | none => 0
      | some t => t.value).sum).sum

/-- The `candidates` list built by Grid.find_empty in the source: all
`(row, col)` positions whose cell is None, in row-major order. -/
def Grid.find_empty_candidates (g : Grid) : List (Int × Int) :=
  ((List.range g.rows).map fun row =>
    (List.range g.cols).filterMap fun col =>
      match g.cellN row col with
      | none => some ((row : Int), (col : Int))
      | some _ => none).flatten

/-- Grid.find_empty from the source: None when there is no empty spot,
otherwise `random.choice(candidates)`.  The random draw is modelled by the
extra argument `pick`; `random.choice` returns the element at some index
below the length of the list, here `pick % candidates.length`. -/
def Grid.find_empty (g : Grid) (pick : Nat) : Option (Int × Int) :=
  let candidates := g.find_empty_candidates
  if candidates = [] then none
  else some (candidates.getD (pick % candidates.length) (0, 0))

/-- Grid.place_tile from the source: find an empty spot, `assert spot is not
None` (an AssertionError, modelled as `none`, when the grid is full), then
store `Tile(self, row, col)` there -- the value defaults to 2 -- and notify
`tile_created`. -/
def Grid.place_tile (g : Grid) (pick : Nat) : Option (Grid × List GameEvent) :=
  match g.find_empty pick with
  | none => none
  | some (row, col) =>
    let tile : Tile := { row := row, col := col, value := 2 }
    some (g.setCell row col (some tile), [{ kind := EventKind.tile_created, tile := tile }])

/-- Grid.left from the source: the body is only `# FIXME` and `pass`, so the
grid is unchanged and no event is emitted. -/
def Grid.left (g : Grid) : Grid × List GameEvent := (g, [])

/-- Grid.right from the source: the body is only `# FIXME` and `pass`. -/
def Grid.right (g : Grid) : Grid × List GameEvent := (g, [])

/-- Grid.up from the source: the body is only `# FIXME` and `pass`. -/
def Grid.up (g : Grid) : Grid × List GameEvent := (g, [])

/-- Grid.down from the source: the body is only `# FIXME` and `pass`. -/
def Grid.down (g : Grid) : Grid × List GameEvent := (g, [])

/-- Tile.move from the source: clear `grid.tiles[self.row][self.col]`, update
`self.row`/`self.col`, store self at the new slot, and notify `tile_updated`
for self (whose fields now show the new position). -/
def Tile.move (g : Grid) (t : Tile) (row col : Int) : Grid × Tile × List GameEvent :=
  let g1 := g.setCell t.row t.col none
  let moved : Tile := { t with row := row, col := col }
  let g2 := g1.setCell row col (some moved)
  (g2, moved, [{ kind := EventKind.tile_updated, tile := moved }])

/-- Tile.merge from the source: `self.value = self.value + other.value`, then
`other.remove()` (which notifies `tile_removed` for other), then notify
`tile_updated` for self.  Here self and other are distinct objects; the
self-aliased call, reachable only from `Tile.slide` with the zero movement
vector, is translated at its call site in `Tile.slide`. -/
def Tile.merge (t other : Tile) : Tile × List GameEvent :=
  let merged : Tile := { t with value := t.value + other.value }
  (merged,
   [{ kind := EventKind.tile_removed, tile := other },
    { kind := EventKind.tile_updated, tile := merged }])

/-- Tile.slide from the source: starting from the tile's position, repeatedly
step by the movement vector `(dx, dy)`: stop at the edge of the board, move
over an empty cell and continue, merge with an equal-valued tile and
continue (note the source's comment `Matching tile, merge and continue`),
stop at a tile with a different value.  The unbounded `while True` is
modelled by `fuel`: the result is `none` when the loop has not exited after
`fuel` iterations.  When the trial position equals the tile's own position
(movement vector `(0, 0)`), the Python cell reference is `self` itself, so
`other.remove()` inside `merge` reports the already-updated value; that
reference aliasing is translated by the inner `if`. -/
def Tile.slide : Nat → Grid → Tile → Int → Int → List GameEvent →
    Option (Grid × Tile × List GameEvent)
  | 0, _, _, _, _, _ => none
  | fuel + 1, g, t, dx, dy, evs =>
    let trial_x := t.row + dx
    let trial_y := t.col + dy
    if g.in_bounds trial_x trial_y then
      match g.cellN trial_x.toNat trial_y.toNat with
      | none =>
        match Tile.move g t trial_x trial_y with
        | (g1, t1, mevs) => Tile.slide fuel g1 t1 dx dy (evs ++ mevs)
      | some other =>
        if other.value = t.value then
          let step : Tile × List GameEvent :=
            if trial_x = t.row ∧ trial_y = t.col then
              let m : Tile := { t with value := t.value + other.value }
              (m, [{ kind := EventKind.tile_removed, tile := m },
                   { kind := EventKind.tile_updated, tile := m }])
            else Tile.merge t other
          match Tile.move g step.fst trial_x trial_y with
          | (g1, t1, mevs) => Tile.slide fuel g1 t1 dx dy (evs ++ step.snd ++ mevs)
        else some (g, t, evs)
    else some (g, t, evs)

/-- Position-cache invariant of the specification: every non-null cell
`(r, c)` of the board stores a tile whose cached `row`/`col` equal `r`/`c`.
Stated as an executable check over all board positions. -/
def Grid.posInv (g : Grid) : Bool :=
  (List.range g.rows).all fun r =>
    (List.range g.cols).all fun c =>
      match g.cellN r c with
      | none => true
      | some t => t.row == (r : Int) && t.col == (c : Int)

/-- The value carried by a single-event notification list, as produced by
`Grid.place_tile`. -/
def placed_value (res : Grid × List GameEvent) : Int :=
  match res.snd with
  | [e] => e.tile.value
  | _ => 0

/-- All values `Grid.place_tile` can place on `g`: `random.choice` returns
the candidate at some index below the candidate count, so every possible
random outcome is one of the picks enumerated here. -/
def Grid.place_tile_values (g : Grid) : List (Option Int) :=
  (List.range g.find_empty_candidates.length).map fun pick =>
    (g.place_tile pick).map placed_value

-- ### List-level helpers

/-- Writing inside the list and reading the same (in-range) slot back. -/
theorem getD_set_self {α : Type} (l : List α) (i : Nat) (a d : α) (h : i < l.length) :
    (l.set i a).getD i d = a := by
  simp [List.getD_eq_getElem?_getD, List.getElem?_set_self h]

/-- Writing one slot leaves reads of any other slot unchanged. -/
theorem getD_set_ne {α : Type} (l : List α) (i j : Nat) (a d : α) (h : i ≠ j) :
    (l.set i a).getD j d = l.getD j d := by
  simp [List.getD_eq_getElem?_getD, List.getElem?_set_ne h]

/-- Rebuilding a list by indexed reads over its own range of positions. -/
theorem map_range_getD {α β : Type} (f : α → β) (d : α) :
    ∀ l : List α, (List.range l.length).map (fun i => f (l.getD i d)) = l.map f := by
  intro l
  induction l with
  | nil => simp
  | cons a l ih =>
    simp only [List.length_cons, List.range_succ_eq_map, List.map_cons, List.getD_cons_zero,
      List.map_map]
    congr 1

/-- Counting through indexed reads over the range of positions. -/
theorem countP_range_getD {α : Type} (p : α → Bool) (d : α) :
    ∀ l : List α, (List.range l.length).countP (fun i => p (l.getD i d)) = l.countP p := by
  intro l
  induction l with
  | nil => simp
  | cons a l ih =>
    simp only [List.length_cons, List.range_succ_eq_map, List.countP_cons, List.countP_map,
      List.getD_cons_zero]
    congr 1

/-- Reading a position of a list built by mapping over a range. -/
theorem getD_map_range {β : Type} (f : Nat → β) (n i : Nat) (d : β) (h : i < n) :
    ((List.range n).map f).getD i d = f i := by
  simp [List.getD_eq_getElem?_getD, List.getElem?_map, List.getElem?_range h]

-- ### Cell accessor lemmas

theorem rows_setCellN (g : Grid) (r c : Nat) (v : Option Tile) :
    (g.setCellN r c v).rows = g.rows := rfl

theorem cols_setCellN (g : Grid) (r c : Nat) (v : Option Tile) :
    (g.setCellN r c v).cols = g.cols := rfl

/-- Reading back the written slot: the written value when the slot exists in
the matrix, otherwise (write was a no-op) the old value. -/
theorem cellN_setCellN_self (g : Grid) (r c : Nat) (v : Option Tile) :
    (g.setCellN r c v).cellN r c = v ∨ (g.setCellN r c v).cellN r c = g.cellN r c := by
  unfold Grid.setCellN Grid.cellN
  by_cases hr : r < g.tiles.length
  · by_cases hc : c < (g.tiles.getD r []).length
    · left
      rw [getD_set_self _ _ _ _ (by simpa using hr), getD_set_self _ _ _ _ hc]
    · right
      rw [getD_set_self _ _ _ _ (by simpa using hr),
        List.set_eq_of_length_le (Nat.le_of_not_lt hc)]
  · right
    rw [List.set_eq_of_length_le (Nat.le_of_not_lt hr)]

/-- Reading any slot other than the written one is unchanged. -/
theorem cellN_setCellN_ne (g : Grid) (r c r' c' : Nat) (v : Option Tile)
    (h : ¬(r = r' ∧ c = c')) : (g.setCellN r c v).cellN r' c' = g.cellN r' c' := by
  unfold Grid.setCellN Grid.cellN
  by_cases hrr : r = r'
  · subst hrr
    have hcc : c ≠ c' := fun hc => h ⟨rfl, hc⟩
    by_cases hr : r < g.tiles.length
    · rw [getD_set_self _ _ _ _ (by simpa using hr), getD_set_ne _ _ _ _ _ hcc]
    · rw [List.set_eq_of_length_le (Nat.le_of_not_lt hr)]
  · rw [getD_set_ne _ _ _ _ _ hrr]

-- ### Position-cache invariant

/-- Unfolding of the executable invariant into its logical form. -/
theorem posInv_iff (g : Grid) : g.posInv = true ↔
    ∀ r, r < g.rows → ∀ c, c < g.cols → ∀ t, g.cellN r c = some t →
      t.row = (r : Int) ∧ t.col = (c : Int) := by
  unfold Grid.posInv
  simp only [List.all_eq_true, List.mem_range]
  constructor
  · intro h r hr c hc t ht
    have h2 := h r hr c hc
    rw [ht] at h2
    simpa using h2
  · intro h r hr c hc
    cases ht : g.cellN r c with
    | none => simp
    | some t =>
      have h2 := h r hr c hc t ht
      simp [h2.1, h2.2]

/-- Writing `none`, or a tile whose cached coordinates match the written
slot, preserves the position-cache invariant. -/
theorem posInv_setCellN (g : Grid) (r c : Nat) (v : Option Tile)
    (hinv : g.posInv = true)
    (hv : ∀ t, v = some t → t.row = (r : Int) ∧ t.col = (c : Int)) :
    (g.setCellN r c v).posInv = true := by
  rw [posInv_iff] at hinv ⊢
  intro r' hr' c' hc' t ht
  rw [rows_setCellN] at hr'
  rw [cols_setCellN] at hc'
  by_cases hsame : r = r' ∧ c = c'
  · obtain ⟨rfl, rfl⟩ := hsame
    rcases cellN_setCellN_self g r c v with hc2 | hc2
    · exact hv t (hc2 ▸ ht)
    · exact hinv r hr' c hc' t (hc2 ▸ ht)
  · rw [cellN_setCellN_ne g r c r' c' v hsame] at ht
    exact hinv r' hr' c' hc' t ht

-- ### Field preservation

theorem rows_set_tiles (g : Grid) (rep : List (List Int)) :
    (g.set_tiles rep).fst.rows = g.rows := rfl

theorem cols_set_tiles (g : Grid) (rep : List (List Int)) :
    (g.set_tiles rep).fst.cols = g.cols := rfl

theorem rows_move (g : Grid) (t : Tile) (row col : Int) :
    (Tile.move g t row col).fst.rows = g.rows := rfl

theorem cols_move (g : Grid) (t : Tile) (row col : Int) :
    (Tile.move g t row col).fst.cols = g.cols := rfl

-- ### Cells of a rebuilt board

/-- Reading a board cell after `set_tiles`. -/
theorem cellN_set_tiles (g : Grid) (rep : List (List Int)) (r c : Nat)
    (hr : r < g.rows) (hc : c < g.cols) :
    (g.set_tiles rep).fst.cellN r c =
      (if (rep.getD r []).getD c 0 = 0 then none
       else some { row := (r : Int), col := (c : Int),
                   value := (rep.getD r []).getD c 0 }) := by
  unfold Grid.set_tiles Grid.cellN
  simp only
  rw [getD_map_range _ _ _ _ hr, getD_map_range _ _ _ _ hc]

/-- The rebuilt board satisfies the position-cache invariant. -/
theorem posInv_set_tiles (g : Grid) (rep : List (List Int)) :
    (g.set_tiles rep).fst.posInv = true := by
  rw [posInv_iff]
  intro r hr c hc t ht
  rw [rows_set_tiles] at hr
  rw [cols_set_tiles] at hc
  rw [cellN_set_tiles g rep r c hr hc] at ht
  by_cases h0 : (rep.getD r []).getD c 0 = 0
  · rw [if_pos h0] at ht; cases ht
  · rw [if_neg h0] at ht
    cases ht
    exact ⟨rfl, rfl⟩

-- ### Empty-cell candidates

/-- Every candidate returned by the row-major scan is an in-range empty cell. -/
theorem mem_find_empty_candidates (g : Grid) (p : Int × Int)
    (hp : p ∈ g.find_empty_candidates) :
    ∃ r c : Nat, r < g.rows ∧ c < g.cols ∧ p = ((r : Int), (c : Int)) ∧
      g.cellN r c = none := by
  unfold Grid.find_empty_candidates at hp
  simp only [List.mem_flatten, List.mem_map, List.mem_range] at hp
  obtain ⟨l, ⟨r, hr, rfl⟩, hmem⟩ := hp
  rw [List.mem_filterMap] at hmem
  obtain ⟨c, hc, hmatch⟩ := hmem
  rw [List.mem_range] at hc
  refine ⟨r, c, hr, hc, ?_⟩
  cases hcell : g.cellN r c with
  | none =>
    rw [hcell] at hmatch
    cases hmatch
    exact ⟨rfl, rfl⟩
  | some t =>
    rw [hcell] at hmatch
    cases hmatch

/-- A successful `find_empty` returns one of the candidates. -/
theorem find_empty_mem (g : Grid) (pick : Nat) (p : Int × Int)
    (h : g.find_empty pick = some p) : p ∈ g.find_empty_candidates := by
  unfold Grid.find_empty at h
  by_cases hc : g.find_empty_candidates = []
  · simp [hc] at h
  · simp only [if_neg hc] at h
    cases h
    have hlen : 0 < g.find_empty_candidates.length := List.length_pos.2 hc
    rw [List.getD_eq_getElem _ _ (Nat.mod_lt _ hlen)]
    exact List.getElem_mem _

-- ### Invariant preservation by the mutators

/-- Placing a tile preserves the position-cache invariant. -/
theorem posInv_place_tile (g : Grid) (pick : Nat) (res : Grid × List GameEvent)
    (hinv : g.posInv = true) (h : g.place_tile pick = some res) :
    res.fst.posInv = true := by
  unfold Grid.place_tile at h
  cases hfe : g.find_empty pick with
  | none => rw [hfe] at h; cases h
  | some p =>
    rw [hfe] at h
    obtain ⟨row, col⟩ := p
    simp only at h
    cases h
    obtain ⟨r, c, hr, hc, hp, hcell⟩ :=
      mem_find_empty_candidates g _ (find_empty_mem g pick _ hfe)
    rw [Prod.mk.injEq] at hp
    obtain ⟨rfl, rfl⟩ := hp
    unfold Grid.setCell
    simp only [Int.toNat_ofNat]
    refine posInv_setCellN g r c _ hinv ?_
    intro t ht
    cases ht
    exact ⟨rfl, rfl⟩

/-- Core of `Tile.move`: writing `none` at the old slot and the repositioned
tile at the (non-negative) new slot preserves the invariant. -/
theorem posInv_move_core (g : Grid) (t : Tile) (row col : Int)
    (hinv : g.posInv = true) (hrow : 0 ≤ row) (hcol : 0 ≤ col) :
    ((g.setCell t.row t.col none).setCell row col
      (some { t with row := row, col := col })).posInv = true := by
  unfold Grid.setCell
  refine posInv_setCellN _ _ _ _ ?_ ?_
  · refine posInv_setCellN g _ _ none hinv ?_
    intro t' ht'
    cases ht'
  · intro t' ht'
    cases ht'
    exact ⟨(Int.toNat_of_nonneg hrow).symm, (Int.toNat_of_nonneg hcol).symm⟩

/-- `Tile.move` preserves the position-cache invariant when the target is at
non-negative coordinates (as every in-bounds target is). -/
theorem posInv_move (g : Grid) (t : Tile) (row col : Int)
    (hinv : g.posInv = true) (hrow : 0 ≤ row) (hcol : 0 ≤ col) :
    (Tile.move g t row col).fst.posInv = true := by
  simpa [Tile.move] using posInv_move_core g t row col hinv hrow hcol

/-- Unfolding the in-bounds check into its arithmetic form. -/
theorem in_bounds_iff (g : Grid) (row col : Int) :
    g.in_bounds row col = true ↔
      0 ≤ row ∧ row < (g.rows : Int) ∧ 0 ≤ col ∧ col < (g.cols : Int) := by
  unfold Grid.in_bounds
  exact decide_eq_true_iff

/-- The slide loop touches the board only through `Tile.move`, so it
preserves the position-cache invariant. -/
theorem posInv_slide (dx dy : Int) :
    ∀ (fuel : Nat) (g : Grid) (t : Tile) (evs : List GameEvent)
      (res : Grid × Tile × List GameEvent),
      g.posInv = true → Tile.slide fuel g t dx dy evs = some res →
      res.fst.posInv = true := by
  intro fuel
  induction fuel with
  | zero => intro g t evs res _ h; cases h
  | succ n ih =>
    intro g t evs res hinv h
    simp only [Tile.slide, Tile.move] at h
    by_cases hb : g.in_bounds (t.row + dx) (t.col + dy) = true
    · rw [if_pos hb] at h
      obtain ⟨hx0, _, hy0, _⟩ := (in_bounds_iff g _ _).1 hb
      cases hcell : g.cellN (t.row + dx).toNat (t.col + dy).toNat with
      | none =>
        rw [hcell] at h
        exact ih _ _ _ _ (posInv_move_core g t _ _ hinv hx0 hy0) h
      | some other =>
        rw [hcell] at h
        dsimp only at h
        by_cases hv : other.value = t.value
        · rw [if_pos hv] at h
          exact ih _ _ _ _ (posInv_move_core g _ _ _ hinv hx0 hy0) h
        · rw [if_neg hv] at h
          cases h
          exact hinv
    · rw [if_neg hb] at h
      cases h
      exact hinv

-- ### Round trip between set_tiles and as_list

/-- Rebuilding the board from a matrix of the right dimensions and reading it
back yields the same matrix. -/
theorem as_list_set_tiles (g : Grid) (rep : List (List Int))
    (h1 : rep.length = g.rows) (h2 : ∀ row ∈ rep, row.length = g.cols) :
    (g.set_tiles rep).fst.as_list = rep := by
  unfold Grid.set_tiles Grid.as_list
  dsimp only
  rw [List.map_map, ← h1]
  have houter := map_range_getD (fun row : List Int => row) [] rep
  rw [List.map_id'] at houter
  conv_rhs => rw [← houter]
  apply List.map_congr_left
  intro r hr
  rw [List.mem_range] at hr
  have hmem : rep.getD r [] ∈ rep := by
    rw [List.getD_eq_getElem rep [] hr]
    exact List.getElem_mem hr
  have hlen : (rep.getD r []).length = g.cols := h2 _ hmem
  simp only [Function.comp]
  rw [← hlen]
  have hinner := map_range_getD (fun x : Int => x) 0 (rep.getD r [])
  rw [List.map_id'] at hinner
  conv_rhs => rw [← hinner]
  rw [List.map_map]
  apply List.map_congr_left
  intro c hc
  by_cases h0 : (rep.getD r []).getD c 0 = 0
  all_goals simp only [List.getD_eq_getElem?_getD] at h0
  · simp [h0]
  · simp [h0]

-- ### Events emitted by set_tiles

/-- Every event emitted while rebuilding the board is a `tile_created`. -/
theorem set_tiles_events_created (g : Grid) (rep : List (List Int)) :
    ∀ e ∈ (g.set_tiles rep).snd, e.kind = EventKind.tile_created := by
  intro e he
  unfold Grid.set_tiles at he
  dsimp only at he
  simp only [List.mem_flatten, List.mem_map, List.mem_range] at he
  obtain ⟨l, ⟨r, hr, rfl⟩, hmem⟩ := he
  rw [List.mem_filterMap] at hmem
  obtain ⟨c, hc, hmatch⟩ := hmem
  by_cases h0 : (rep.getD r []).getD c 0 = 0
  · rw [if_pos h0] at hmatch
    cases hmatch
  · rw [if_neg h0] at hmatch
    cases hmatch
    rfl

/-- One `tile_created` event is emitted per non-zero entry of the matrix. -/
theorem set_tiles_events_length (g : Grid) (rep : List (List Int))
    (h1 : rep.length = g.rows) (h2 : ∀ row ∈ rep, row.length = g.cols) :
    (g.set_tiles rep).snd.length =
      (rep.map (fun row => row.countP (fun v => decide (v ≠ 0)))).sum := by
  unfold Grid.set_tiles
  dsimp only
  rw [List.length_flatten, List.map_map, ← h1]
  rw [← map_range_getD (fun row : List Int => row.countP (fun v => decide (v ≠ 0))) [] rep]
  congr 1
  apply List.map_congr_left
  intro r hr
  rw [List.mem_range] at hr
  simp only [Function.comp]
  rw [List.length_filterMap_eq_countP]
  have hmem : rep.getD r [] ∈ rep := by
    rw [List.getD_eq_getElem rep [] hr]
    exact List.getElem_mem hr
  have hlen : (rep.getD r []).length = g.cols := h2 _ hmem
  rw [← hlen]
  rw [← countP_range_getD (fun v => decide (v ≠ 0)) 0 (rep.getD r [])]
  apply List.countP_congr
  intro c hc
  by_cases h0 : (rep.getD r []).getD c 0 = 0
  · simp [h0]
  · simp [h0]

-- ### Emptiness and the place_tile precondition

/-- An in-range empty cell appears in the candidate list. -/
theorem mem_find_empty_candidates_intro (g : Grid) (r c : Nat)
    (hr : r < g.rows) (hc : c < g.cols) (hcell : g.cellN r c = none) :
    ((r : Int), (c : Int)) ∈ g.find_empty_candidates := by
  unfold Grid.find_empty_candidates
  simp only [List.mem_flatten, List.mem_map, List.mem_range]
  refine ⟨_, ⟨r, hr, rfl⟩, ?_⟩
  rw [List.mem_filterMap]
  refine ⟨c, List.mem_range.mpr hc, ?_⟩
  rw [hcell]

/-- When an in-range empty cell exists the candidate list is not empty. -/
theorem candidates_ne_nil_of_empty (g : Grid) (r c : Nat)
    (hr : r < g.rows) (hc : c < g.cols) (hcell : g.cellN r c = none) :
    g.find_empty_candidates ≠ [] := by
  intro hnil
  have hmem := mem_find_empty_candidates_intro g r c hr hc hcell
  rw [hnil] at hmem
  cases hmem

/-- When no in-range cell is empty the candidate list is empty. -/
theorem candidates_nil_of_no_empty (g : Grid)
    (h : ∀ r, r < g.rows → ∀ c, c < g.cols → g.cellN r c ≠ none) :
    g.find_empty_candidates = [] := by
  cases hcand : g.find_empty_candidates with
  | nil => rfl
  | cons p l =>
    exfalso
    have hmem : p ∈ g.find_empty_candidates := by
      rw [hcand]
      exact List.mem_cons_self p l
    obtain ⟨r, c, hr, hc, _, hcell⟩ := mem_find_empty_candidates g p hmem
    exact h r hr c hc hcell

/-- With a non-empty candidate list, `place_tile` succeeds. -/
theorem place_tile_ne_none (g : Grid) (pick : Nat)
    (h : g.find_empty_candidates ≠ []) : g.place_tile pick ≠ none := by
  unfold Grid.place_tile Grid.find_empty
  rw [if_neg h]
  dsimp only
  intro hcon
  cases hcon

/-- With an empty candidate list, the `assert` in `place_tile` fails. -/
theorem place_tile_eq_none (g : Grid) (pick : Nat)
    (h : g.find_empty_candidates = []) : g.place_tile pick = none := by
  unfold Grid.place_tile Grid.find_empty
  rw [if_pos h]

-- ### Slide loop: breaking, monotonicity in fuel

/-- One unfolding of the slide loop. -/
theorem slide_succ (fuel : Nat) (g : Grid) (t : Tile) (dx dy : Int)
    (evs : List GameEvent) :
    Tile.slide (fuel + 1) g t dx dy evs =
      (if g.in_bounds (t.row + dx) (t.col + dy) then
        match g.cellN (t.row + dx).toNat (t.col + dy).toNat with
        | none =>
          match Tile.move g t (t.row + dx) (t.col + dy) with
          | (g1, t1, mevs) => Tile.slide fuel g1 t1 dx dy (evs ++ mevs)
        | some other =>
          if other.value = t.value then
            let step : Tile × List GameEvent :=
              if t.row + dx = t.row ∧ t.col + dy = t.col then
                let m : Tile := { t with value := t.value + other.value }
                (m, [{ kind := EventKind.tile_removed, tile := m },
                     { kind := EventKind.tile_updated, tile := m }])
              else Tile.merge t other
            match Tile.move g step.fst (t.row + dx) (t.col + dy) with
            | (g1, t1, mevs) => Tile.slide fuel g1 t1 dx dy (evs ++ step.snd ++ mevs)
          else some (g, t, evs)
      else some (g, t, evs)) := rfl

/-- When the first trial position is already out of bounds the loop breaks
at once. -/
theorem slide_break (fuel : Nat) (g : Grid) (t : Tile) (dx dy : Int)
    (evs : List GameEvent)
    (h : g.in_bounds (t.row + dx) (t.col + dy) = false) :
    Tile.slide (fuel + 1) g t dx dy evs = some (g, t, evs) := by
  simp [Tile.slide, h]

/-- A result reached within some amount of fuel is reached with any larger
amount: the loop exit does not depend on the fuel. -/
theorem slide_mono (dx dy : Int) :
    ∀ (fuel fuel2 : Nat) (g : Grid) (t : Tile) (evs : List GameEvent)
      (res : Grid × Tile × List GameEvent),
      fuel ≤ fuel2 → Tile.slide fuel g t dx dy evs = some res →
      Tile.slide fuel2 g t dx dy evs = some res := by
  intro fuel
  induction fuel with
  | zero => intro fuel2 g t evs res _ h; cases h
  | succ n ih =>
    intro fuel2 g t evs res hle h
    obtain ⟨m, rfl⟩ : ∃ m, fuel2 = m + 1 := ⟨fuel2 - 1, by omega⟩
    simp only [Tile.slide, Tile.move] at h ⊢
    by_cases hb : g.in_bounds (t.row + dx) (t.col + dy) = true
    · rw [if_pos hb] at h ⊢
      cases hcell : g.cellN (t.row + dx).toNat (t.col + dy).toNat with
      | none =>
        rw [hcell] at h
        dsimp only at h ⊢
        exact ih m _ _ _ _ (by omega) h
      | some other =>
        rw [hcell] at h
        dsimp only at h ⊢
        by_cases hv : other.value = t.value
        · rw [if_pos hv] at h ⊢
          exact ih m _ _ _ _ (by omega) h
        · rw [if_neg hv] at h ⊢
          exact h
    · rw [if_neg hb] at h ⊢
      exact h

-- ### Slide loop: fuel bounds for the four sign cases

/-- Sliding with positive row step: once the bound on the starting row is
met, the loop exits within the given fuel. -/
theorem slide_fuel_row_pos (dx dy : Int) (hdx : 0 < dx) :
    ∀ (fuel : Nat) (g : Grid) (t : Tile) (evs : List GameEvent),
      (g.rows : Int) ≤ t.row + dx * (fuel : Int) →
      ∃ res, Tile.slide (fuel + 1) g t dx dy evs = some res := by
  intro fuel
  induction fuel with
  | zero =>
    intro g t evs hbound
    simp only [Nat.cast_zero, mul_zero, add_zero] at hbound
    refine ⟨(g, t, evs), ?_⟩
    apply slide_break
    unfold Grid.in_bounds
    simp only [decide_eq_false_iff_not]
    rintro ⟨h1, h2, h3, h4⟩
    omega
  | succ n ih =>
    intro g t evs hbound
    have hexp : dx * ((n : Int) + 1) = dx * (n : Int) + dx := by ring
    push_cast at hbound
    have hstep : (g.rows : Int) ≤ (t.row + dx) + dx * (n : Int) := by linarith [hexp]
    rw [slide_succ]
    by_cases hb : g.in_bounds (t.row + dx) (t.col + dy) = true
    · rw [if_pos hb]
      cases hcell : g.cellN (t.row + dx).toNat (t.col + dy).toNat with
      | none =>
        dsimp only [Tile.move]
        refine ih _ _ _ ?_
        exact hstep
      | some other =>
        dsimp only [Tile.move]
        by_cases hv : other.value = t.value
        · rw [if_pos hv]
          refine ih _ _ _ ?_
          exact hstep
        · rw [if_neg hv]
          exact ⟨_, rfl⟩
    · rw [if_neg hb]
      exact ⟨_, rfl⟩

/-- Sliding with negative row step: symmetric bound towards row zero. -/
theorem slide_fuel_row_neg (dx dy : Int) (hdx : dx < 0) :
    ∀ (fuel : Nat) (g : Grid) (t : Tile) (evs : List GameEvent),
      t.row + dx * (fuel : Int) < 0 →
      ∃ res, Tile.slide (fuel + 1) g t dx dy evs = some res := by
  intro fuel
  induction fuel with
  | zero =>
    intro g t evs hbound
    simp only [Nat.cast_zero, mul_zero, add_zero] at hbound
    refine ⟨(g, t, evs), ?_⟩
    apply slide_break
    unfold Grid.in_bounds
    simp only [decide_eq_false_iff_not]
    rintro ⟨h1, h2, h3, h4⟩
    omega
  | succ n ih =>
    intro g t evs hbound
    have hexp : dx * ((n : Int) + 1) = dx * (n : Int) + dx := by ring
    push_cast at hbound
    have hstep : (t.row + dx) + dx * (n : Int) < 0 := by linarith [hexp]
    rw [slide_succ]
    by_cases hb : g.in_bounds (t.row + dx) (t.col + dy) = true
    · rw [if_pos hb]
      cases hcell : g.cellN (t.row + dx).toNat (t.col + dy).toNat with
      | none =>
        dsimp only [Tile.move]
        refine ih _ _ _ ?_
        exact hstep
      | some other =>
        dsimp only [Tile.move]
        by_cases hv : other.value = t.value
        · rw [if_pos hv]
          refine ih _ _ _ ?_
          exact hstep
        · rw [if_neg hv]
          exact ⟨_, rfl⟩
    · rw [if_neg hb]
      exact ⟨_, rfl⟩

/-- Sliding with positive column step. -/
theorem slide_fuel_col_pos (dx dy : Int) (hdy : 0 < dy) :
    ∀ (fuel : Nat) (g : Grid) (t : Tile) (evs : List GameEvent),
      (g.cols : Int) ≤ t.col + dy * (fuel : Int) →
      ∃ res, Tile.slide (fuel + 1) g t dx dy evs = some res := by
  intro fuel
  induction fuel with
  | zero =>
    intro g t evs hbound
    simp only [Nat.cast_zero, mul_zero, add_zero] at hbound
    refine ⟨(g, t, evs), ?_⟩
    apply slide_break
    unfold Grid.in_bounds
    simp only [decide_eq_false_iff_not]
    rintro ⟨h1, h2, h3, h4⟩
    omega
  | succ n ih =>
    intro g t evs hbound
    have hexp : dy * ((n : Int) + 1) = dy * (n : Int) + dy := by ring
    push_cast at hbound
    have hstep : (g.cols : Int) ≤ (t.col + dy) + dy * (n : Int) := by linarith [hexp]
    rw [slide_succ]
    by_cases hb : g.in_bounds (t.row + dx) (t.col + dy) = true
    · rw [if_pos hb]
      cases hcell : g.cellN (t.row + dx).toNat (t.col + dy).toNat with
      | none =>
        dsimp only [Tile.move]
        refine ih _ _ _ ?_
        exact hstep
      | some other =>
        dsimp only [Tile.move]
        by_cases hv : other.value = t.value
        · rw [if_pos hv]
          refine ih _ _ _ ?_
          exact hstep
        · rw [if_neg hv]
          exact ⟨_, rfl⟩
    · rw [if_neg hb]
      exact ⟨_, rfl⟩

/-- Sliding with negative column step. -/
theorem slide_fuel_col_neg (dx dy : Int) (hdy : dy < 0) :
    ∀ (fuel : Nat) (g : Grid) (t : Tile) (evs : List GameEvent),
      t.col + dy * (fuel : Int) < 0 →
      ∃ res, Tile.slide (fuel + 1) g t dx dy evs = some res := by
  intro fuel
  induction fuel with
  | zero =>
    intro g t evs hbound
    simp only [Nat.cast_zero, mul_zero, add_zero] at hbound
    refine ⟨(g, t, evs), ?_⟩
    apply slide_break
    unfold Grid.in_bounds
    simp only [decide_eq_false_iff_not]
    rintro ⟨h1, h2, h3, h4⟩
    omega
  | succ n ih =>
    intro g t evs hbound
    have hexp : dy * ((n : Int) + 1) = dy * (n : Int) + dy := by ring
    push_cast at hbound
    have hstep : (t.col + dy) + dy * (n : Int) < 0 := by linarith [hexp]
    rw [slide_succ]
    by_cases hb : g.in_bounds (t.row + dx) (t.col + dy) = true
    · rw [if_pos hb]
      cases hcell : g.cellN (t.row + dx).toNat (t.col + dy).toNat with
      | none =>
        dsimp only [Tile.move]
        refine ih _ _ _ ?_
        exact hstep
      | some other =>
        dsimp only [Tile.move]
        by_cases hv : other.value = t.value
        · rw [if_pos hv]
          refine ih _ _ _ ?_
          exact hstep
        · rw [if_neg hv]
          exact ⟨_, rfl⟩
    · rw [if_neg hb]
      exact ⟨_, rfl⟩

-- ### Example boards used in concrete theorems

/-- An all-zero row of the serialization format. -/
def row0000 : List Int := [0, 0, 0, 0]

/-- Board whose first row is [2,2,0,0], all other cells empty. -/
def exampleMergeRow : Grid :=
  (Grid.init.set_tiles [[2, 2, 0, 0], row0000, row0000, row0000]).fst

/-- Board whose first row is [2,2,4,0], all other cells empty. -/
def exampleChainRow : Grid :=
  (Grid.init.set_tiles [[2, 2, 4, 0], row0000, row0000, row0000]).fst

/-- Board with exactly two empty cells, at (3,2) and (3,3). -/
def exampleTwoEmpty : Grid :=
  (Grid.init.set_tiles [[2, 2, 2, 2], [2, 2, 2, 2], [2, 2, 2, 2], [2, 2, 0, 0]]).fst

/-- Board with a single tile of value 2 at the origin. -/
def exampleSingle : Grid :=
  (Grid.init.set_tiles [[2, 0, 0, 0], row0000, row0000, row0000]).fst

/-- A completely full board (no empty cell, no two equal neighbours). -/
def exampleFull : Grid :=
  (Grid.init.set_tiles [[2, 4, 2, 4], [4, 2, 4, 2], [2, 4, 2, 4], [4, 2, 4, 2]]).fst

-- ### Claims

/-- C1: the claim says that on a board whose first row is [2,2,0,0] calling
left() collapses that row to [4,0,0,0] and emits a tile_updated and a
tile_removed event.  The source's Grid.left is an unimplemented stub (its
docstring promises sliding but the body is only a FIXME comment and pass),
so the board stays [2,2,0,0] and no event at all is emitted. -/
theorem left_on_merge_row_is_noop :
    (exampleMergeRow.left).fst.as_list = [[2, 2, 0, 0], row0000, row0000, row0000] ∧
    (exampleMergeRow.left).fst.as_list ≠ [[4, 0, 0, 0], row0000, row0000, row0000] ∧
    (exampleMergeRow.left).snd = [] := by
  refine ⟨by decide, by decide, rfl⟩

/-- C2: each of the four directional moves left(), right(), up(), down() is
a pass-only stub in the source, so on every board it returns the grid
completely unchanged and emits no event. -/
theorem directional_moves_are_noops (g : Grid) :
    g.left = (g, []) ∧ g.right = (g, []) ∧ g.up = (g, []) ∧ g.down = (g, []) :=
  ⟨rfl, rfl, rfl, rfl⟩

/-- C3 counterexample: on the row [2,2,4,0] a single slide of the (0,0) tile
to the right merges TWICE (2+2 = 4, then 4+4 = 8): two tile_removed events
are emitted and the surviving tile ends with value 8 at column 3, refuting
"merges at most one pair / stops after the first merge". -/
theorem slide_double_merge_cex :
    (Tile.slide 10 exampleChainRow { row := 0, col := 0, value := 2 } 0 1 []).map
      (fun res => (res.snd.fst.value, res.snd.fst.col,
        res.snd.snd.countP (fun e => e.kind == EventKind.tile_removed))) =
      some (8, 3, 2) := by decide

/-- C3 (amended): after a merge the slide loop does NOT stop: it relocates
the merged tile to the trial cell and continues the loop from there, so a
further equal-valued tile beyond can merge again in the same invocation
(the source comments this branch "Matching tile, merge and continue"). -/
theorem slide_continues_after_merge (fuel : Nat) (g : Grid) (t other : Tile)
    (dx dy : Int) (evs : List GameEvent)
    (hb : g.in_bounds (t.row + dx) (t.col + dy) = true)
    (hc : g.cellN (t.row + dx).toNat (t.col + dy).toNat = some other)
    (hv : other.value = t.value)
    (hna : ¬(t.row + dx = t.row ∧ t.col + dy = t.col)) :
    Tile.slide (fuel + 1) g t dx dy evs =
      Tile.slide fuel
        ((g.setCell t.row t.col none).setCell (t.row + dx) (t.col + dy)
          (some { row := t.row + dx, col := t.col + dy,
                  value := t.value + other.value }))
        { row := t.row + dx, col := t.col + dy, value := t.value + other.value }
        dx dy
        (evs ++
          [{ kind := EventKind.tile_removed, tile := other },
           { kind := EventKind.tile_updated,
             tile := { t with value := t.value + other.value } },
           { kind := EventKind.tile_updated,
             tile := { row := t.row + dx, col := t.col + dy,
                       value := t.value + other.value } }]) := by
  rw [slide_succ, if_pos hb, hc]
  dsimp only
  rw [if_pos hv, if_neg hna]
  dsimp only [Tile.merge, Tile.move]
  simp only [List.append_assoc]
  rfl

/-- C3 amended witness: the continuation equation instantiated on the
[2,2,4,0] board at the first merge step. -/
theorem slide_continues_after_merge_witness :
    Tile.slide 10 exampleChainRow { row := 0, col := 0, value := 2 } 0 1 [] =
      Tile.slide 9
        ((exampleChainRow.setCell 0 0 none).setCell 0 1
          (some { row := 0, col := 1, value := 4 }))
        { row := 0, col := 1, value := 4 } 0 1
        [{ kind := EventKind.tile_removed, tile := { row := 0, col := 1, value := 2 } },
         { kind := EventKind.tile_updated, tile := { row := 0, col := 0, value := 4 } },
         { kind := EventKind.tile_updated, tile := { row := 0, col := 1, value := 4 } }] := by
  exact slide_continues_after_merge 9 exampleChainRow
    { row := 0, col := 0, value := 2 } { row := 0, col := 1, value := 2 }
    0 1 [] (by decide) (by decide) rfl (by decide)

/-- C4 counterexample: merging two tiles of value 2 emits the events in the
order tile_removed (for the absorbed tile) first and tile_updated (for the
surviving tile) second, refuting the claimed updated-then-removed order. -/
theorem merge_event_order_cex :
    Tile.merge { row := 0, col := 0, value := 2 } { row := 0, col := 1, value := 2 } =
      ({ row := 0, col := 0, value := 4 },
       [{ kind := EventKind.tile_removed, tile := { row := 0, col := 1, value := 2 } },
        { kind := EventKind.tile_updated, tile := { row := 0, col := 0, value := 4 } }]) ∧
    (Tile.merge { row := 0, col := 0, value := 2 }
        { row := 0, col := 1, value := 2 }).snd.map GameEvent.kind ≠
      [EventKind.tile_updated, EventKind.tile_removed] := by
  exact ⟨rfl, by decide⟩

/-- C4 (amended): merge adds the other tile's value to the surviving tile's
value, and the events are emitted in the order tile_removed for the absorbed
tile first, then tile_updated for the surviving tile (whose snapshot already
carries the new value). -/
theorem merge_adds_value_removed_first (t other : Tile) :
    (Tile.merge t other).fst = { t with value := t.value + other.value } ∧
    (Tile.merge t other).snd =
      [{ kind := EventKind.tile_removed, tile := other },
       { kind := EventKind.tile_updated,
         tile := { t with value := t.value + other.value } }] :=
  ⟨rfl, rfl⟩

/-- C5 counterexample: on a board with two empty cells, every possible
random outcome of place_tile places a tile of value 2; no outcome places a
4, refuting the 4-with-probability-0.1 claim. -/
theorem place_tile_never_four_cex :
    exampleTwoEmpty.place_tile_values = [some 2, some 2] ∧
    some 4 ∉ exampleTwoEmpty.place_tile_values := by decide

/-- C5 (amended): place_tile takes no value argument; whenever it succeeds
the single tile_created event carries a tile of value exactly 2 (the source
notes that the 10 percent chance of a 4 of the original 2048 is not
implemented). -/
theorem place_tile_always_places_two (g : Grid) (pick : Nat)
    (res : Grid × List GameEvent) (h : g.place_tile pick = some res) :
    res.snd.map (fun e => (e.kind, e.tile.value)) = [(EventKind.tile_created, 2)] := by
  unfold Grid.place_tile at h
  cases hfe : g.find_empty pick with
  | none => rw [hfe] at h; cases h
  | some p =>
    rw [hfe] at h
    obtain ⟨row, col⟩ := p
    dsimp only at h
    cases h
    rfl

/-- C5 amended witness: a concrete successful placement carries value 2. -/
theorem place_tile_always_places_two_witness :
    ((exampleTwoEmpty.place_tile 0).getD (Grid.init, [])).snd.map
      (fun e => (e.kind, e.tile.value)) = [(EventKind.tile_created, 2)] := by
  exact place_tile_always_places_two exampleTwoEmpty 0 _ (by decide)

/-- C6 counterexample: set_tiles does emit events: rebuilding the board from
a matrix with one non-zero entry emits one tile_created event, refuting
"no events emitted". -/
theorem set_tiles_emits_cex :
    (Grid.init.set_tiles [[2, 0, 0, 0], row0000, row0000, row0000]).snd =
      [{ kind := EventKind.tile_created, tile := { row := 0, col := 0, value := 2 } }] ∧
    (Grid.init.set_tiles [[2, 0, 0, 0], row0000, row0000, row0000]).snd ≠ [] := by
  exact ⟨by decide, by decide⟩

/-- C6 (amended): for a matrix of the board's dimensions, set_tiles replaces
the whole board contents (reading the board back yields the matrix) and
emits exactly one tile_created event per non-zero entry -- every emitted
event is a tile_created. -/
theorem set_tiles_replaces_and_creates (g : Grid) (rep : List (List Int))
    (h1 : rep.length = g.rows) (h2 : ∀ row ∈ rep, row.length = g.cols) :
    (g.set_tiles rep).fst.as_list = rep ∧
    (g.set_tiles rep).snd.countP (fun e => e.kind == EventKind.tile_created) =
      (g.set_tiles rep).snd.length ∧
    (g.set_tiles rep).snd.length =
      (rep.map (fun row => row.countP (fun v => decide (v ≠ 0)))).sum := by
  refine ⟨as_list_set_tiles g rep h1 h2, ?_, set_tiles_events_length g rep h1 h2⟩
  rw [List.countP_eq_length]
  intro e he
  have := set_tiles_events_created g rep e he
  simp [this]

/-- C6 amended witness: the amended description evaluated on a concrete
matrix with three non-zero entries. -/
theorem set_tiles_replaces_and_creates_witness :
    (Grid.init.set_tiles [[2, 0, 4, 0], row0000, [0, 0, 0, 8], row0000]).fst.as_list =
      [[2, 0, 4, 0], row0000, [0, 0, 0, 8], row0000] ∧
    (Grid.init.set_tiles [[2, 0, 4, 0], row0000, [0, 0, 0, 8], row0000]).snd.countP
        (fun e => e.kind == EventKind.tile_created) =
      (Grid.init.set_tiles [[2, 0, 4, 0], row0000, [0, 0, 0, 8], row0000]).snd.length ∧
    (Grid.init.set_tiles [[2, 0, 4, 0], row0000, [0, 0, 0, 8], row0000]).snd.length =
      ([[2, 0, 4, 0], row0000, [0, 0, 0, 8], row0000].map
        (fun row => row.countP (fun v => decide (v ≠ 0)))).sum := by
  exact set_tiles_replaces_and_creates Grid.init _ (by decide) (by decide)

/-- C7: every board mutator -- set_tiles, place_tile, and slide with its
move steps (merge itself never touches the board array) -- preserves the
invariant that each non-null cell (r,c) stores a tile whose cached row and
col equal r and c. -/
theorem mutators_preserve_position_inv
    (g : Grid) (rep : List (List Int)) (pick : Nat) (t : Tile)
    (rowM colM dx dy : Int) (fuel : Nat)
    (resP : Grid × List GameEvent) (resS : Grid × Tile × List GameEvent)
    (hinv : g.posInv = true)
    (hP : g.place_tile pick = some resP)
    (hM : g.in_bounds rowM colM = true)
    (hS : Tile.slide fuel g t dx dy [] = some resS) :
    (g.set_tiles rep).fst.posInv = true ∧
    resP.fst.posInv = true ∧
    (Tile.move g t rowM colM).fst.posInv = true ∧
    resS.fst.posInv = true := by
  obtain ⟨hx0, _, hy0, _⟩ := (in_bounds_iff g rowM colM).1 hM
  exact ⟨posInv_set_tiles g rep, posInv_place_tile g pick resP hinv hP,
    posInv_move g t rowM colM hinv hx0 hy0,
    posInv_slide dx dy fuel g t [] resS hinv hS⟩

/-- C7 witness: the invariant checked on the outputs of all four mutators at
a concrete board. -/
theorem mutators_preserve_position_inv_witness :
    (exampleChainRow.set_tiles [[2, 0, 0, 0], row0000, row0000, row0000]).fst.posInv = true ∧
    ((exampleChainRow.place_tile 0).getD (Grid.init, [])).fst.posInv = true ∧
    (Tile.move exampleChainRow { row := 0, col := 0, value := 2 } 1 1).fst.posInv = true ∧
    ((Tile.slide 10 exampleChainRow { row := 0, col := 0, value := 2 } 0 1 []).getD
      (Grid.init, { row := 0, col := 0, value := 2 }, [])).fst.posInv = true := by
  exact mutators_preserve_position_inv exampleChainRow _ 0 _ 1 1 0 1 10 _ _
    (by decide) (by decide) (by decide) (by decide)

/-- C8: rebuilding the board from any rectangular matrix of non-negative
integers with the board's dimensions (0 meaning empty) and reading it back
with as_list returns exactly the same matrix. -/
theorem from_list_to_list_round_trip (g : Grid) (rep : List (List Int))
    (h1 : rep.length = g.rows) (h2 : ∀ row ∈ rep, row.length = g.cols)
    (h3 : ∀ row ∈ rep, ∀ v ∈ row, 0 ≤ v) :
    (g.set_tiles rep).fst.as_list = rep :=
  as_list_set_tiles g rep h1 h2

/-- C8 witness: the round trip on the all-zero matrix and on a fully
occupied matrix. -/
theorem from_list_to_list_round_trip_witness :
    (Grid.init.set_tiles [row0000, row0000, row0000, row0000]).fst.as_list =
      [row0000, row0000, row0000, row0000] ∧
    (Grid.init.set_tiles
        [[2, 4, 8, 16], [32, 64, 128, 256], [2, 2, 2, 2], [4, 4, 4, 4]]).fst.as_list =
      [[2, 4, 8, 16], [32, 64, 128, 256], [2, 2, 2, 2], [4, 4, 4, 4]] := by
  exact ⟨from_list_to_list_round_trip Grid.init _ (by decide) (by decide) (by decide),
    from_list_to_list_round_trip Grid.init _ (by decide) (by decide) (by decide)⟩

/-- C9: place_tile's precondition is that some cell is empty: when an
in-range empty cell exists the call succeeds (the assert passes and a tile
is stored), and when no cell is empty the assert fails -- modelled as the
none result -- rather than recovering or silently returning. -/
theorem place_tile_assert_precondition (g : Grid) (pick : Nat) :
    ((∃ r, r < g.rows ∧ ∃ c, c < g.cols ∧ g.cellN r c = none) →
      g.place_tile pick ≠ none) ∧
    ((∀ r, r < g.rows → ∀ c, c < g.cols → g.cellN r c ≠ none) →
      g.place_tile pick = none) := by
  constructor
  · rintro ⟨r, hr, c, hc, hcell⟩
    exact place_tile_ne_none g pick (candidates_ne_nil_of_empty g r c hr hc hcell)
  · intro h
    exact place_tile_eq_none g pick (candidates_nil_of_no_empty g h)

/-- C9 witness: success on a board with an empty cell, assertion failure on
a full board. -/
theorem place_tile_assert_precondition_witness :
    exampleTwoEmpty.place_tile 0 ≠ none ∧ exampleFull.place_tile 0 = none := by
  refine ⟨(place_tile_assert_precondition exampleTwoEmpty 0).1 ?_,
    (place_tile_assert_precondition exampleFull 0).2 ?_⟩
  · exact ⟨3, by decide, 2, by decide, by decide⟩
  · decide

/-- C10 counterexample: with the movement vector (0,0) the slide loop never
exits: the tile merges with itself through the aliased board reference and
keeps looping, so even 60 iterations -- far beyond any grid-size bound for
the 4 x 4 board -- do not reach an exit. -/
theorem slide_zero_vector_no_exit_cex :
    Tile.slide 60 exampleSingle { row := 0, col := 0, value := 2 } 0 0 [] = none := by
  decide

/-- C10 (amended): for every movement vector other than (0,0) the slide loop
terminates, within rows + cols + 2 iterations (a bound linear in the grid
size); the zero vector, which the game itself never uses, makes the loop
run forever. -/
theorem slide_nonzero_vector_terminates (g : Grid) (t : Tile) (dx dy : Int)
    (evs : List GameEvent) (h : dx ≠ 0 ∨ dy ≠ 0) :
    (Tile.slide (g.rows + g.cols + 2) g t dx dy evs).isSome = true := by
  rw [Option.isSome_iff_exists]
  by_cases hb : g.in_bounds (t.row + dx) (t.col + dy) = true
  · obtain ⟨hx0, hxR, hy0, hyC⟩ := (in_bounds_iff g _ _).1 hb
    rcases h with hdx | hdy
    · rcases lt_or_gt_of_ne hdx with hneg | hpos
      · obtain ⟨res, hres⟩ := slide_fuel_row_neg dx dy hneg (g.rows + 1) g t evs (by
          push_cast
          have hexp : dx * ((g.rows : Int) + 1) = dx * (g.rows : Int) + dx := by ring
          have hprod : dx * (g.rows : Int) ≤ -(g.rows : Int) := by
            have h6 := mul_le_mul_of_nonneg_right (show dx ≤ -1 by omega)
              (Int.natCast_nonneg g.rows)
            linarith
          linarith [hexp, hprod])
        exact ⟨res, slide_mono dx dy _ _ g t evs res (by omega) hres⟩
      · obtain ⟨res, hres⟩ := slide_fuel_row_pos dx dy hpos (g.rows + 1) g t evs (by
          push_cast
          have hexp : dx * ((g.rows : Int) + 1) = dx * (g.rows : Int) + dx := by ring
          have hprod : (g.rows : Int) ≤ dx * (g.rows : Int) := by
            have h6 := mul_le_mul_of_nonneg_right (show (1 : Int) ≤ dx by omega)
              (Int.natCast_nonneg g.rows)
            linarith
          linarith [hexp, hprod])
        exact ⟨res, slide_mono dx dy _ _ g t evs res (by omega) hres⟩
    · rcases lt_or_gt_of_ne hdy with hneg | hpos
      · obtain ⟨res, hres⟩ := slide_fuel_col_neg dx dy hneg (g.cols + 1) g t evs (by
          push_cast
          have hexp : dy * ((g.cols : Int) + 1) = dy * (g.cols : Int) + dy := by ring
          have hprod : dy * (g.cols : Int) ≤ -(g.cols : Int) := by
            have h6 := mul_le_mul_of_nonneg_right (show dy ≤ -1 by omega)
              (Int.natCast_nonneg g.cols)
            linarith
          linarith [hexp, hprod])
        exact ⟨res, slide_mono dx dy _ _ g t evs res (by omega) hres⟩
      · obtain ⟨res, hres⟩ := slide_fuel_col_pos dx dy hpos (g.cols + 1) g t evs (by
          push_cast
          have hexp : dy * ((g.cols : Int) + 1) = dy * (g.cols : Int) + dy := by ring
          have hprod : (g.cols : Int) ≤ dy * (g.cols : Int) := by
            have h6 := mul_le_mul_of_nonneg_right (show (1 : Int) ≤ dy by omega)
              (Int.natCast_nonneg g.cols)
            linarith
          linarith [hexp, hprod])
        exact ⟨res, slide_mono dx dy _ _ g t evs res (by omega) hres⟩
  · have hfalse : g.in_bounds (t.row + dx) (t.col + dy) = false := by
      cases hval : g.in_bounds (t.row + dx) (t.col + dy)
      · rfl
      · exact absurd hval hb
    refine ⟨(g, t, evs), ?_⟩
    exact slide_mono dx dy _ _ g t evs _ (by omega)
      (slide_break (g.rows + g.cols + 1) g t dx dy evs hfalse)

/-- C10 amended witness: termination of a rightward slide on a concrete
board within the stated fuel. -/
theorem slide_nonzero_vector_terminates_witness :
    (Tile.slide (exampleChainRow.rows + exampleChainRow.cols + 2)
      exampleChainRow { row := 0, col := 0, value := 2 } 0 1 []).isSome = true := by
  exact slide_nonzero_vector_terminates exampleChainRow
    { row := 0, col := 0, value := 2 } 0 1 [] (Or.inr (by decide))

end FiveTwelve
